import Mathlib

/-!
Verification of the heuristic decision engine in `src/ai/defaultAi.ts`
(the `DefaultAI` class of the Fifth-Aeon CCG model).

The embedding is shallow: pure TypeScript helpers become Lean functions.
Lodash helpers used by the source are modelled faithfully:
  * `sortBy` is a stable ascending sort by a key (modelled by `sortByKey`,
    an insertion sort that keeps the original order of equal keys);
  * `minBy` / `maxBy` return the first element attaining the extremum
    (modelled by `minimumBy` / `maximumBy`);
  * `take` is `List.take`; `remove(arr, p)` removes every matching element,
    modelled by `List.filter` with the negated predicate.
JavaScript numbers that carry heuristic scores are modelled by `ℚ`;
resource costs are modelled by `ℕ` (the spec treats integer costs as a
precondition); damage and life totals by `ℤ`.
-/

namespace CCG

/-- Insert an element into a list so that every earlier element has a
key that is at most the inserted element's key. Together with
`sortByKey` this reproduces lodash's stable ascending `sortBy`. -/
def insertLE {α β : Type} [LinearOrder β] (key : α → β) (a : α) : List α → List α
  | [] => [a]
  | b :: l => if key a ≤ key b then a :: b :: l else b :: insertLE key a l

/-- Stable ascending sort by a key, modelling lodash `sortBy`. -/
def sortByKey {α β : Type} [LinearOrder β] (key : α → β) : List α → List α
  | [] => []
  | a :: l => insertLE key a (sortByKey key l)

/-- First element attaining the minimal key, modelling lodash `minBy`
(which only replaces its candidate on a strictly smaller key). -/
def minimumBy {α β : Type} [LinearOrder β] (key : α → β) : List α → Option α
  | [] => none
  | a :: l =>
    match minimumBy key l with
    | none => some a
    | some b => if key b < key a then some b else some a

/-- First element attaining the maximal key, modelling lodash `maxBy`
(which only replaces its candidate on a strictly larger key). -/
def maximumBy {α β : Type} [LinearOrder β] (key : α → β) : List α → Option α
  | [] => none
  | a :: l =>
    match maximumBy key l with
    | none => some a
    | some b => if key b > key a then some b else some a

/-!
Choice heuristics (`cardDrawHeuristic`, `evaluateToDraw`, `evaluateToDiscard`,
`evaluateToReplace`, `highestStatHeuristic`, `getHeuristic`, `getCardToChoose`,
`makeChoice`) from `src/ai/defaultAi.ts`. A card is modelled by the data
these functions read: its numeric cost and, for units, its total stats.
The AI player's resource pool (`this.aiPlayer.getPool().getNumeric()`) and
the deck's unique cards (`this.deck.getUniqueCards()`) are passed explicitly.
-/

/-- Model of a card as seen by the choice heuristics: an identifier
standing for object identity, the numeric cost, and total stats. -/
structure CCard where
  id : Nat
  cost : Int
  stats : Int
deriving DecidableEq

/-- Source `cardDrawHeuristic`: absolute distance between the AI player's
resource pool and the card's cost. -/
def cardDrawHeuristic (pool : Int) (card : CCard) : Int :=
  |pool - card.cost|

/-- Source `evaluateToDraw`: the first `max` cards sorted ascending by the
draw heuristic. -/
def evaluateToDraw (pool : Int) (choices : List CCard) (mi ma : Nat) : List CCard :=
  (sortByKey (fun card => cardDrawHeuristic pool card) choices).take ma

/-- Source `evaluateToDiscard`: the first `min` cards sorted ascending by the
negated draw heuristic. -/
def evaluateToDiscard (pool : Int) (choices : List CCard) (mi ma : Nat) : List CCard :=
  (sortByKey (fun card => -cardDrawHeuristic pool card) choices).take mi

/-- Source `evaluateToReplace`: the `min` worst cards are mandatory; of the
rest, only those whose heuristic exceeds the deck average are kept, sorted
ascending, and the result is filled up to `max` total. The deck average
(`meanBy` over the deck's unique cards) is computed in `ℚ`. -/
def evaluateToReplace (pool : Int) (deckCards : List CCard)
    (choices : List CCard) (mi ma : Nat) : List CCard :=
  let worst := sortByKey (fun card => -cardDrawHeuristic pool card) choices
  let mandatory := worst.take mi
  let optional0 := worst.drop mi
  let optional :=
    if 0 < optional0.length then
      let average : ℚ :=
        ((deckCards.map (fun card => ((cardDrawHeuristic pool card : Int) : ℚ))).sum) /
          (deckCards.length : ℚ)
      sortByKey (fun card => cardDrawHeuristic pool card)
        (optional0.filter (fun card => average < ((cardDrawHeuristic pool card : Int) : ℚ)))
    else optional0
  mandatory ++ optional.take (ma - mandatory.length)

/-- Source `highestStatHeuristic`: the first `max` cards sorted descending by
total stats. -/
def highestStatHeuristic (choices : List CCard) (mi ma : Nat) : List CCard :=
  (sortByKey (fun card => -card.stats) choices).take ma

/-- The `ChoiceHeuristic` enumeration from `src/ai/heuristics.ts`. -/
inductive ChoiceHeuristic where
  | DrawHeuristic
  | DiscardHeuristic
  | HighestStatsHeuristic
  | ReplaceHeuristic
deriving DecidableEq

/-- Source `getHeuristic`: dispatch from a heuristic tag to the choice
function. -/
def getHeuristic (pool : Int) (deckCards : List CCard) :
    ChoiceHeuristic → (List CCard → Nat → Nat → List CCard)
  | ChoiceHeuristic.DrawHeuristic => evaluateToDraw pool
  | ChoiceHeuristic.DiscardHeuristic => evaluateToDiscard pool
  | ChoiceHeuristic.HighestStatsHeuristic => highestStatHeuristic
  | ChoiceHeuristic.ReplaceHeuristic => evaluateToReplace pool deckCards

/-- Source `getCardToChoose`: if fewer options than `min` are offered, all
options are returned; otherwise the heuristic's selection is returned (the
source calls the evaluator twice, logging a warning if the count is out of
bounds, and returns the second, identical result). -/
def getCardToChoose (pool : Int) (deckCards : List CCard)
    (options : List CCard) (mi ma : Nat) (tag : ChoiceHeuristic) : List CCard :=
  if options.length < mi then options
  else getHeuristic pool deckCards tag options mi ma

/-- The externally visible effects of one `makeChoice` call: whether the
choice was deferred to the game, and the selection submitted via the
zero-delay continuation, if any. -/
structure ChoiceEffect where
  deferred : Bool
  submitted : Option (List CCard)
deriving DecidableEq

/-- Source `makeChoice`: with no callback it returns immediately; otherwise
it defers the choice to the game, returns if the prompted player is not the
AI's player, and else computes a selection with `getCardToChoose` and
submits it through a zero-delay timeout. -/
def makeChoice (pool : Int) (deckCards : List CCard) (aiPlayerNumber : Nat)
    (player : Nat) (options : List CCard) (mi ma : Nat)
    (hasCallback : Bool) (tag : ChoiceHeuristic) : ChoiceEffect :=
  if !hasCallback then ⟨false, none⟩
  else if player ≠ aiPlayerNumber then ⟨true, none⟩
  else ⟨true, some (getCardToChoose pool deckCards options mi ma tag)⟩

/-!
Combat model for `canFavorablyBlock` and `block` from `src/ai/defaultAi.ts`.
The collaborators these methods call live outside `src/` and are modelled
from the spec as abstract parameters gathered in `BlockEnv`:
  * `Unit.canBlockTarget(attacker)` and its hypothetical variant
    `Unit.canBlockTarget(attacker, true)` (block-eligibility and evasion
    restrictions, spec section 4.7);
  * `CombatAnalyzer.categorizeBlock(attacker, blocker)` (spec section 4.5);
  * `Unit.evaluate(game, EvalContext.LethalRemoval)` (removal-context
    valuation, spec section 6).
A unit carries the data `block` reads directly: an identifier standing for
object identity, its damage, whether it has the Flying mechanic, and the
result of `canBlock()`.
-/

/-- Model of a unit as read by the block planner. -/
structure BUnit where
  id : Nat
  damage : Int
  flying : Bool
  canBlock : Bool
deriving DecidableEq

/-- The `BlockOutcome` enumeration, modelled from the spec: a total order
`AttackerDies < NeitherDies < BothDie < BlockerDies` whose numeric ranks
are also used as sort keys by the source. -/
inductive BlockOutcome where
  | AttackerDies
  | NeitherDies
  | BothDie
  | BlockerDies
deriving DecidableEq

/-- Numeric rank of a `BlockOutcome`, in the spec's total order. -/
def BlockOutcome.rank : BlockOutcome → ℚ
  | BlockOutcome.AttackerDies => 0
  | BlockOutcome.NeitherDies => 1
  | BlockOutcome.BothDie => 2
  | BlockOutcome.BlockerDies => 3

/-- Abstract external collaborators of the combat planners. `canBlockTarget
blocker attacker` models `blocker.canBlockTarget(attacker)`;
`canBlockTargetHyp` models the hypothetical call
`blocker.canBlockTarget(attacker, true)`; `categorize attacker blocker`
models `CombatAnalyzer.categorizeBlock`; `value` models the unit's
lethal-removal-context valuation. -/
structure BlockEnv where
  canBlockTarget : BUnit → BUnit → Bool
  canBlockTargetHyp : BUnit → BUnit → Bool
  categorize : BUnit → BUnit → BlockOutcome
  value : BUnit → ℚ

/-- Source `canFavorablyBlock`: false unless the blocker could
hypothetically block the attacker; otherwise true exactly for the outcomes
`AttackerDies`, `NeitherDies`, or `BothDie` with the attacker's
lethal-removal valuation strictly greater than the blocker's. -/
def canFavorablyBlock (env : BlockEnv) (attacker blocker : BUnit) : Bool :=
  if !(env.canBlockTargetHyp blocker attacker) then false
  else
    let type := env.categorize attacker blocker
    type == BlockOutcome.AttackerDies ||
      type == BlockOutcome.NeitherDies ||
      (type == BlockOutcome.BothDie &&
        decide (env.value blocker < env.value attacker))

/-- One matchup record built inside `block`. -/
structure BlockMatchup where
  blocker : BUnit
  attacker : BUnit
  type : BlockOutcome
  tradeScore : ℚ
deriving DecidableEq

/-- State threaded through `block`'s loop over attackers: the pool of
not-yet-assigned potential blockers, the remaining total incoming damage,
and the committed blocks so far. -/
structure BlockState where
  pool : List BUnit
  totalDamage : Int
  blocks : List BlockMatchup
deriving DecidableEq

/-- The body of `block`'s `for (const attacker of attackers)` loop: build
the legal matchups from the current pool, take the one minimizing
`type * 100000 + tradeScore` (lodash `minBy`), and commit it when incoming
damage is lethal, or the outcome is better than `BothDie`, or it is
`BothDie` with non-positive trade score. On commit the blocker is removed
from the pool and the attacker's damage from the running total. -/
def blockStep (env : BlockEnv) (life : Int) (st : BlockState) (attacker : BUnit) :
    BlockState :=
  let options :=
    (st.pool.filter (fun blocker => env.canBlockTarget blocker attacker)).map
      (fun blocker =>
        BlockMatchup.mk blocker attacker (env.categorize attacker blocker)
          (env.value blocker - env.value attacker))
  match minimumBy (fun option => option.type.rank * 100000 + option.tradeScore) options with
  | none => st
  | some best =>
    if st.totalDamage ≥ life ∨ best.type.rank < BlockOutcome.BothDie.rank ∨
        (best.type = BlockOutcome.BothDie ∧ best.tradeScore ≤ 0) then
      BlockState.mk (st.pool.filter (fun unit => unit ≠ best.blocker))
        (st.totalDamage - attacker.damage) (st.blocks ++ [best])
    else st

/-- Source `block`: sort the attackers descending by damage plus a 1000
bonus for Flying, build the pool of potential blockers with
`filter(unit => !unit.canBlock())` (exactly as written in the source),
start the damage total at the sum of attacker damages, and fold the loop
body over the sorted attackers. Returns the committed blocks. -/
def blockPass (env : BlockEnv) (life : Int) (attackers units : List BUnit) :
    List BlockMatchup :=
  let sortedAttackers :=
    sortByKey (fun attacker => -(attacker.damage + (if attacker.flying then 1000 else 0)))
      attackers
  let pool := units.filter (fun unit => !unit.canBlock)
  let totalDamage := (sortedAttackers.map (fun attacker => attacker.damage)).sum
  (sortedAttackers.foldl (blockStep env life) (BlockState.mk pool totalDamage [])).blocks

/-- The invariant maintained by `block`'s loop: no committed blocker is
still in the pool, and the committed blockers are pairwise distinct. -/
def BlocksInv (st : BlockState) : Prop :=
  (∀ m ∈ st.blocks, m.blocker ∉ st.pool) ∧
    (st.blocks.map (fun m => m.blocker)).Nodup

/-!
Action evaluation (`getBestTarget`, `getBestHost`, `evaluateCard`,
`evaluateEnchantment`) and action selection (`selectActions`) from
`src/ai/defaultAi.ts`. A card is modelled by the data these methods read:
its cost, its own play-context evaluation, the targeter's `needsInput` and
`isOptional` flags, the scores of its valid targets, whether it is an item,
and the value multipliers of the item's valid hosts. Targets and hosts are
identified with their scores; JavaScript exceptions become `Except`. -/

/-- Error raised by the evaluator; `noHostForItem` models
`throw new Error` with the message naming a missing item host. -/
inductive AiError where
  | noHostForItem
deriving DecidableEq

/-- Model of a card as read by `evaluateCard`. -/
structure ECard where
  cost : Nat
  baseScore : ℚ
  needsInput : Bool
  optionalTarget : Bool
  targetScores : List ℚ
  isItem : Bool
  hostMultipliers : List ℚ
deriving DecidableEq

/-- Model of an enchantment as read by `evaluateEnchantment`: its play
cost, its modify cost, and its power. -/
structure MEnchantment where
  playCost : Nat
  modifyCost : Nat
  power : ℚ
deriving DecidableEq

/-- The `EvaluatedAction` interface: a score, a cost, and optional card,
enchantment target, target and host fields. The card is represented by an
identifier, the target and host by their scores. -/
structure EvaluatedAction where
  score : ℚ
  cost : Nat
  card : Option Nat
  enchantmentTarget : Option MEnchantment
  target : Option ℚ
  host : Option ℚ
deriving DecidableEq

/-- Source `getBestTarget`: the valid target maximizing the card's
target-evaluation (lodash `maxBy`, first maximum); with no valid target the
action is the card alone with score 0. -/
def getBestTarget (cid : Nat) (card : ECard) : EvaluatedAction :=
  match maximumBy (fun score => score) card.targetScores with
  | none => EvaluatedAction.mk 0 card.cost (some cid) none none none
  | some best => EvaluatedAction.mk best card.cost (some cid) none (some best) none

/-- Source `getBestHost`: the valid unit host maximizing the non-lethal
removal value multiplier; with no valid host it throws. -/
def getBestHost (card : ECard) : Except AiError ℚ :=
  match maximumBy (fun multiplier => multiplier) card.hostMultipliers with
  | none => Except.error AiError.noHostForItem
  | some best => Except.ok best

/-- Source `evaluateCard`: start from the card alone with score 0; if the
targeter needs input, use the best target when its score is positive or
targeting is mandatory; for items, set the host (propagating the
`getBestHost` exception); finally add the card's own play evaluation. -/
def evaluateCard (cid : Nat) (card : ECard) : Except AiError EvaluatedAction :=
  let base := EvaluatedAction.mk 0 card.cost (some cid) none none none
  let result :=
    if card.needsInput then
      let best := getBestTarget cid card
      if 0 < best.score ∨ card.optionalTarget = false then best else base
    else base
  (if card.isItem then
    (getBestHost card).map (fun host =>
      EvaluatedAction.mk result.score result.cost result.card
        result.enchantmentTarget result.target (some host))
  else Except.ok result).map
    (fun action =>
      EvaluatedAction.mk (action.score + card.baseScore) action.cost action.card
        action.enchantmentTarget action.target action.host)

/-- The zero-score, zero-cost placeholder `{ score: 0, cost: 0 }` that
`selectActions` substitutes for a candidate whose evaluation threw. -/
def placeholderAction : EvaluatedAction :=
  EvaluatedAction.mk 0 0 none none none none

/-- The candidate-construction stage of `selectActions` restricted to the
playable cards: each card is evaluated inside a try/catch that logs the
error and downgrades the candidate to the zero-score, zero-cost
placeholder. -/
def evalCandidates (cards : List (Nat × ECard)) : List EvaluatedAction :=
  cards.map (fun pair =>
    match evaluateCard pair.1 pair.2 with
    | Except.ok action => action
    | Except.error _ => placeholderAction)

/-- Source `evaluateEnchantment`: cost is the modify cost and score is the
play cost divided by the product of modify cost and power. -/
def evaluateEnchantment (enchantment : MEnchantment) : EvaluatedAction :=
  EvaluatedAction.mk
    ((enchantment.playCost : ℚ) / ((enchantment.modifyCost : ℚ) * enchantment.power))
    enchantment.modifyCost none (some enchantment) none none

/-!
The Budget Optimizer. The `knapsack` function itself lives in
`src/algorithms`, which is not part of this repository snapshot.
Modelled from the spec: `knapsack` from `src/algorithms` is an
"unbounded-instance-count-zero, 0/1, bounded-integer-weight optimal subset
selection (classic knapsack)" returning "the subset maximizing total score
subject to total cost ≤ budget", with ties between equal-value subsets
"broken by preferring the subset containing the single highest-scoring
individual action". The model below picks, for each item in turn, the
better of taking and skipping it, resolving equal-value comparisons in
favor of taking — so an equal-value subset containing an item (in
particular the highest-scoring one) is preferred over one omitting it,
as the spec's tie-break requires. -/

/-- The `KnapsackItem` interface: weight `w`, benefit `b`, payload. -/
structure KnapsackItem (α : Type) where
  w : Nat
  b : ℚ
  data : α
deriving DecidableEq

/-- Total weight of a selection. -/
def totalW {α : Type} (items : List (KnapsackItem α)) : Nat :=
  (items.map (fun item => item.w)).sum

/-- Total benefit of a selection. -/
def totalB {α : Type} (items : List (KnapsackItem α)) : ℚ :=
  (items.map (fun item => item.b)).sum

/-- Modelled from the spec: the `knapsack` algorithm of `src/algorithms`
as 0/1 optimal subset selection (see the section comment above). -/
def knapsackSel {α : Type} : Nat → List (KnapsackItem α) → List (KnapsackItem α)
  | _, [] => []
  | budget, item :: rest =>
    let without := knapsackSel budget rest
    if item.w ≤ budget then
      let withItem := item :: knapsackSel (budget - item.w) rest
      if totalB withItem < totalB without then without else withItem
    else without

/-- The optimizer invocation inside `selectActions`: wrap each evaluated
action as a `KnapsackItem` with its cost as weight and score as benefit,
run the knapsack on the available energy, and unwrap the data. -/
def selectActionsToRun (energy : Nat) (actions : List EvaluatedAction) :
    List EvaluatedAction :=
  (knapsackSel energy
    (actions.map (fun action => KnapsackItem.mk action.cost action.score action))).map
    (fun item => item.data)

/-- The scheduling decision at the end of `selectActions`: lodash `maxBy`
over the optimizer's chosen subset is truthy exactly when that subset is
non-empty, and then a commit of the best action plus a fresh
`selectActions` replanning step are appended to the action sequence. -/
def selectActionsSchedules (energy : Nat) (actions : List EvaluatedAction) : Bool :=
  (maximumBy (fun action => action.score) (selectActionsToRun energy actions)).isSome

/-!
Concrete fixtures used to settle individual claims on explicit inputs.
-/

/-- A world in which every unit may block every attacker, every pairing
ends with both units dying, and all units are worthless: used to exhibit
the blocker-pool bug on a concrete board. -/
def bugEnv : BlockEnv :=
  BlockEnv.mk (fun _ _ => true) (fun _ _ => true)
    (fun _ _ => BlockOutcome.BothDie) (fun _ => 0)

/-- A world in which every unit may block every attacker, every pairing
ends with both units dying, and the unit with identifier 2 is strictly
more valuable (5) than the others (3). -/
def cexEnv : BlockEnv :=
  BlockEnv.mk (fun _ _ => true) (fun _ _ => true)
    (fun _ _ => BlockOutcome.BothDie)
    (fun unit => if unit.id = 2 then 5 else 3)

/-- An item card (cost 3, own evaluation 2) whose host targeter yields no
eligible host unit. -/
def hostlessItem : ECard :=
  ECard.mk 3 2 false true [] true []

/-- The optimizer example from the spec: candidates of cost 3 and score 10,
cost 2 and score 6, cost 4 and score 9. -/
def exItems : List (KnapsackItem EvaluatedAction) :=
  [KnapsackItem.mk 3 10 placeholderAction, KnapsackItem.mk 2 6 placeholderAction,
    KnapsackItem.mk 4 9 placeholderAction]

/-!
Lemmas about the lodash models used by several claims.
-/

theorem insertLE_perm {α β : Type} [LinearOrder β] (key : α → β) (a : α) (l : List α) :
    List.Perm (insertLE key a l) (a :: l) := by
  induction l with
  | nil => simp [insertLE]
  | cons b t ih =>
    by_cases h : key a ≤ key b
    · simp [insertLE, h]
    · simp only [insertLE, if_neg h]
      exact (List.Perm.cons b ih).trans (List.Perm.swap a b t)

theorem sortByKey_perm {α β : Type} [LinearOrder β] (key : α → β) (l : List α) :
    List.Perm (sortByKey key l) l := by
  induction l with
  | nil => simp [sortByKey]
  | cons a t ih =>
    exact (insertLE_perm key a (sortByKey key t)).trans (List.Perm.cons a ih)

theorem sortByKey_length {α β : Type} [LinearOrder β] (key : α → β) (l : List α) :
    (sortByKey key l).length = l.length :=
  (sortByKey_perm key l).length_eq

theorem mem_sortByKey {α β : Type} [LinearOrder β] (key : α → β) (l : List α) (x : α) :
    x ∈ sortByKey key l ↔ x ∈ l :=
  (sortByKey_perm key l).mem_iff

theorem insertLE_pairwise {α β : Type} [LinearOrder β] (key : α → β) (a : α) (l : List α)
    (h : List.Pairwise (fun x y => key x ≤ key y) l) :
    List.Pairwise (fun x y => key x ≤ key y) (insertLE key a l) := by
  induction l with
  | nil => simp [insertLE]
  | cons b t ih =>
    rcases List.pairwise_cons.mp h with ⟨hb, ht⟩
    by_cases hab : key a ≤ key b
    · rw [show insertLE key a (b :: t) = a :: b :: t from if_pos hab]
      refine List.pairwise_cons.mpr ⟨?_, h⟩
      intro y hy
      rcases List.mem_cons.mp hy with rfl | hyt
      · exact hab
      · exact le_trans hab (hb y hyt)
    · rw [show insertLE key a (b :: t) = b :: insertLE key a t from if_neg hab]
      refine List.pairwise_cons.mpr ⟨?_, ih ht⟩
      intro y hy
      have hy2 := (insertLE_perm key a t).mem_iff.mp hy
      rcases List.mem_cons.mp hy2 with rfl | hyt
      · exact le_of_lt (lt_of_not_le hab)
      · exact hb y hyt

theorem sortByKey_pairwise {α β : Type} [LinearOrder β] (key : α → β) (l : List α) :
    List.Pairwise (fun x y => key x ≤ key y) (sortByKey key l) := by
  induction l with
  | nil => simp [sortByKey]
  | cons a t ih => exact insertLE_pairwise key a (sortByKey key t) ih

/-- The head of the stable sort has a minimal key among all list members. -/
theorem sortByKey_head_min {α β : Type} [LinearOrder β] (key : α → β) (l : List α)
    (d : α) (t : List α) (hsort : sortByKey key l = d :: t) :
    ∀ y ∈ l, key d ≤ key y := by
  intro y hy
  have hmem : y ∈ d :: t := by
    rw [← hsort]; exact (mem_sortByKey key l y).mpr hy
  rcases List.mem_cons.mp hmem with rfl | hyt
  · exact le_refl _
  · have hp := sortByKey_pairwise key l
    rw [hsort] at hp
    exact (List.pairwise_cons.mp hp).1 y hyt

theorem minimumBy_mem {α β : Type} [LinearOrder β] (key : α → β) (l : List α) (x : α)
    (h : minimumBy key l = some x) : x ∈ l := by
  induction l with
  | nil => simp [minimumBy] at h
  | cons a t ih =>
    simp only [minimumBy] at h
    cases hm : minimumBy key t with
    | none => rw [hm] at h; simp at h; simp [h]
    | some b =>
      rw [hm] at h
      simp only [] at h
      by_cases hlt : key b < key a
      · rw [if_pos hlt] at h
        have hbx : b = x := by simpa using h
        exact List.mem_cons_of_mem a (ih (hm.trans (by rw [hbx])))
      · rw [if_neg hlt] at h
        simp at h; simp [h]

theorem minimumBy_isSome {α β : Type} [LinearOrder β] (key : α → β) (l : List α) :
    (minimumBy key l).isSome = true ↔ l ≠ [] := by
  cases l with
  | nil => simp [minimumBy]
  | cons a t =>
    simp only [minimumBy]
    cases minimumBy key t with
    | none => simp
    | some b =>
      by_cases hlt : key b < key a
      · simp [hlt]
      · simp [hlt]

theorem maximumBy_isSome {α β : Type} [LinearOrder β] (key : α → β) (l : List α) :
    (maximumBy key l).isSome = true ↔ l ≠ [] := by
  cases l with
  | nil => simp [maximumBy]
  | cons a t =>
    simp only [maximumBy]
    cases maximumBy key t with
    | none => simp
    | some b =>
      by_cases hlt : key b > key a
      · simp [hlt]
      · simp [hlt]

/-!
Knapsack lemmas: the selection respects the budget and is optimal among
all sublists.
-/

theorem knapsackSel_weight_le {α : Type} :
    ∀ (items : List (KnapsackItem α)) (budget : Nat),
      totalW (knapsackSel budget items) ≤ budget := by
  intro items
  induction items with
  | nil =>
    intro budget
    simp [knapsackSel, totalW]
  | cons item rest ih =>
    intro budget
    simp only [knapsackSel]
    by_cases hw : item.w ≤ budget
    · simp only [if_pos hw]
      by_cases hb : totalB (item :: knapsackSel (budget - item.w) rest) <
          totalB (knapsackSel budget rest)
      · simp only [if_pos hb]
        exact ih budget
      · simp only [if_neg hb]
        have h2 := ih (budget - item.w)
        simp only [totalW, List.map_cons, List.sum_cons] at h2 ⊢
        omega
    · simp only [if_neg hw]
      exact ih budget

theorem knapsackSel_optimal {α : Type} :
    ∀ (items : List (KnapsackItem α)) (budget : Nat) (sub : List (KnapsackItem α)),
      List.Sublist sub items → totalW sub ≤ budget →
      totalB sub ≤ totalB (knapsackSel budget items) := by
  intro items
  induction items with
  | nil =>
    intro budget sub hsub hw
    rw [List.sublist_nil.mp hsub]
    simp [knapsackSel]
  | cons item rest ih =>
    intro budget sub hsub hw
    simp only [knapsackSel]
    cases hsub with
    | cons _ h =>
      have h1 : totalB sub ≤ totalB (knapsackSel budget rest) := ih budget sub h hw
      by_cases hw2 : item.w ≤ budget
      · simp only [if_pos hw2]
        by_cases hb : totalB (item :: knapsackSel (budget - item.w) rest) <
            totalB (knapsackSel budget rest)
        · simp only [if_pos hb]
          exact h1
        · simp only [if_neg hb]
          exact le_trans h1 (not_lt.mp hb)
      · simp only [if_neg hw2]
        exact h1
    | cons₂ _ h =>
      rename_i tail
      have hw2 : item.w ≤ budget := by
        simp only [totalW, List.map_cons, List.sum_cons] at hw
        omega
      have hwt : totalW tail ≤ budget - item.w := by
        simp only [totalW, List.map_cons, List.sum_cons] at hw ⊢
        omega
      have h1 : totalB tail ≤ totalB (knapsackSel (budget - item.w) rest) :=
        ih _ tail h hwt
      have h2 : totalB (item :: tail) ≤
          totalB (item :: knapsackSel (budget - item.w) rest) := by
        simp only [totalB, List.map_cons, List.sum_cons]
        exact add_le_add_left h1 _
      simp only [if_pos hw2]
      by_cases hb : totalB (item :: knapsackSel (budget - item.w) rest) <
          totalB (knapsackSel budget rest)
      · simp only [if_pos hb]
        exact le_trans h2 (le_of_lt hb)
      · simp only [if_neg hb]
        exact h2

/-!
Claim C3: correctness of the Budget Optimizer.
-/

/-- C3: for every finite list of candidate actions (non-negative integer
costs by the typing of `KnapsackItem`) and every budget, the subset
returned by the knapsack has total cost at most the budget, and no sublist
whose total cost is within the budget has strictly greater total score. -/
theorem C3_knapsack_optimal (budget : Nat) (items : List (KnapsackItem EvaluatedAction)) :
    totalW (knapsackSel budget items) ≤ budget ∧
    ∀ sub, List.Sublist sub items → totalW sub ≤ budget →
      totalB sub ≤ totalB (knapsackSel budget items) :=
  ⟨knapsackSel_weight_le items budget,
   fun sub hsub hw => knapsackSel_optimal items budget sub hsub hw⟩

/-- C3 witness: the spec's optimizer example (budget 5, candidates of
cost 3 score 10, cost 2 score 6, cost 4 score 9), with the sublist holding
only the third candidate as the competing subset. -/
theorem C3_witness :
    totalW (knapsackSel 5 exItems) ≤ 5 ∧
    totalB [KnapsackItem.mk 4 9 placeholderAction] ≤ totalB (knapsackSel 5 exItems) :=
  ⟨(C3_knapsack_optimal 5 exItems).1,
   (C3_knapsack_optimal 5 exItems).2 [KnapsackItem.mk 4 9 placeholderAction]
     (List.Sublist.cons _ (List.Sublist.cons _
       (List.Sublist.cons₂ _ List.Sublist.slnil)))
     (by decide)⟩

/-!
Invariant lemmas for the block planner's loop (claims C1 and C6).
-/

theorem blockStep_inv (env : BlockEnv) (life : Int) (st : BlockState) (attacker : BUnit)
    (h : BlocksInv st) : BlocksInv (blockStep env life st attacker) := by
  simp only [blockStep]
  cases hmin : minimumBy (fun option => option.type.rank * 100000 + option.tradeScore)
      ((st.pool.filter (fun blocker => env.canBlockTarget blocker attacker)).map
        (fun blocker =>
          BlockMatchup.mk blocker attacker (env.categorize attacker blocker)
            (env.value blocker - env.value attacker))) with
  | none => exact h
  | some best =>
    by_cases hc : st.totalDamage ≥ life ∨ best.type.rank < BlockOutcome.BothDie.rank ∨
        (best.type = BlockOutcome.BothDie ∧ best.tradeScore ≤ 0)
    · simp only [if_pos hc]
      have hbm := minimumBy_mem _ _ _ hmin
      obtain ⟨blocker, hbl, hbeq⟩ := List.mem_map.mp hbm
      have hpool : best.blocker ∈ st.pool := by
        rw [← hbeq]
        exact (List.mem_filter.mp hbl).1
      constructor
      · intro m hm
        rcases List.mem_append.mp hm with hold | hnew
        · intro hmem
          exact h.1 m hold ((List.mem_filter.mp hmem).1)
        · have hbest : m = best := by simpa using hnew
          subst hbest
          intro hmem
          have := (List.mem_filter.mp hmem).2
          simp at this
      · simp only [List.map_append, List.map_cons, List.map_nil]
        rw [List.nodup_append]
        refine ⟨h.2, List.nodup_singleton _, ?_⟩
        intro x hx hx2
        have hxb : x = best.blocker := by simpa using hx2
        obtain ⟨m, hm, hmb⟩ := List.mem_map.mp hx
        exact h.1 m hm (by rw [hmb, hxb]; exact hpool)
    · simp only [if_neg hc]
      exact h

theorem foldl_blockStep_inv (env : BlockEnv) (life : Int) :
    ∀ (attackers : List BUnit) (st : BlockState), BlocksInv st →
      BlocksInv (attackers.foldl (blockStep env life) st) := by
  intro attackers
  induction attackers with
  | nil =>
    intro st h
    exact h
  | cons a t ih =>
    intro st h
    exact ih _ (blockStep_inv env life st a h)

/-!
Claim C6: each blocker is assigned to at most one attacker.
-/

/-- C6: across one full block-planning pass — for every environment, life
total, attacker list and unit list — the committed matchups carry pairwise
distinct blockers: a blocker is removed from the pool when its matchup is
committed, so it is never assigned to a later attacker. -/
theorem C6_blockers_distinct (env : BlockEnv) (life : Int) (attackers units : List BUnit) :
    ((blockPass env life attackers units).map (fun m => m.blocker)).Nodup := by
  simp only [blockPass]
  exact (foldl_blockStep_inv env life _ _ ⟨by simp, by simp⟩).2

/-!
Claim C1: composition of the blocker pool.
-/

/-- C1: on a concrete board the blocker pool built by `block` is exactly
the units whose `canBlock()` is false — the unit able to block is excluded
and never paired, while the unit unable to block is paired with the
attacker and committed. This contradicts the claim (and the method's own
documentation) that blockers are drawn from the units able to block. -/
theorem C1_blocker_pool_inverted :
    (([⟨1, 2, false, true⟩, ⟨2, 2, false, false⟩] : List BUnit).filter
        (fun unit => !unit.canBlock)) = [⟨2, 2, false, false⟩] ∧
    blockPass bugEnv 20 [⟨10, 3, false, false⟩] [⟨1, 2, false, true⟩, ⟨2, 2, false, false⟩] =
      [BlockMatchup.mk ⟨2, 2, false, false⟩ ⟨10, 3, false, false⟩ BlockOutcome.BothDie 0] ∧
    (⟨2, 2, false, false⟩ : BUnit).canBlock = false ∧
    (⟨1, 2, false, true⟩ : BUnit).canBlock = true := by
  refine ⟨rfl, ?_, rfl, rfl⟩
  simp [blockPass, blockStep, sortByKey, insertLE, minimumBy, bugEnv, BlockOutcome.rank]

/-!
Claim C2: the favorable-block test.
-/

/-- C2 counterexample: a legal pairing classified `BothDie` in which the
blocker's lethal-removal valuation (5) strictly exceeds the attacker's (3),
yet `canFavorablyBlock` returns `false` — refuting the claim that it
returns `true` exactly for `AttackerDies`, `NeitherDies`, or `BothDie`
with the blocker's valuation strictly greater than the attacker's. -/
theorem C2_counterexample :
    cexEnv.canBlockTargetHyp ⟨2, 2, false, true⟩ ⟨10, 3, false, false⟩ = true ∧
    cexEnv.categorize ⟨10, 3, false, false⟩ ⟨2, 2, false, true⟩ = BlockOutcome.BothDie ∧
    cexEnv.value ⟨10, 3, false, false⟩ < cexEnv.value ⟨2, 2, false, true⟩ ∧
    canFavorablyBlock cexEnv ⟨10, 3, false, false⟩ ⟨2, 2, false, true⟩ = false := by
  decide

/-- C2 amended: for every pairing the blocker may hypothetically block,
`canFavorablyBlock` returns `true` if and only if the classified outcome is
`AttackerDies`, or `NeitherDies`, or `BothDie` with the attacker's
removal-context valuation strictly greater than the blocker's. -/
theorem C2_canFavorablyBlock_amended (env : BlockEnv) (attacker blocker : BUnit)
    (h : env.canBlockTargetHyp blocker attacker = true) :
    canFavorablyBlock env attacker blocker = true ↔
      (env.categorize attacker blocker = BlockOutcome.AttackerDies ∨
       env.categorize attacker blocker = BlockOutcome.NeitherDies ∨
       (env.categorize attacker blocker = BlockOutcome.BothDie ∧
        env.value blocker < env.value attacker)) := by
  simp [canFavorablyBlock, h, or_assoc]

/-- C2 witness: the amended equivalence evaluated on a concrete legal
pairing (attacker valued 5, blocker valued 3, outcome `BothDie`). -/
theorem C2_witness :
    canFavorablyBlock cexEnv ⟨2, 2, false, true⟩ ⟨10, 3, false, false⟩ = true ↔
      (cexEnv.categorize ⟨2, 2, false, true⟩ ⟨10, 3, false, false⟩ = BlockOutcome.AttackerDies ∨
       cexEnv.categorize ⟨2, 2, false, true⟩ ⟨10, 3, false, false⟩ = BlockOutcome.NeitherDies ∨
       (cexEnv.categorize ⟨2, 2, false, true⟩ ⟨10, 3, false, false⟩ = BlockOutcome.BothDie ∧
        cexEnv.value ⟨10, 3, false, false⟩ < cexEnv.value ⟨2, 2, false, true⟩)) :=
  C2_canFavorablyBlock_amended cexEnv ⟨2, 2, false, true⟩ ⟨10, 3, false, false⟩ rfl

/-!
Claim C4: an item presented as playable with no eligible host.
-/

/-- C4 counterexample: for an item with no eligible host, `evaluateCard`
raises the no-host error, but the candidate-construction stage of
`selectActions` catches it and substitutes the zero-score, zero-cost
placeholder — the error does not propagate out of the planning cycle,
refuting the claim that the condition is fatal and unrecoverable. -/
theorem C4_counterexample :
    hostlessItem.isItem = true ∧ hostlessItem.hostMultipliers = [] ∧
    evaluateCard 7 hostlessItem = Except.error AiError.noHostForItem ∧
    evalCandidates [(7, hostlessItem)] = [placeholderAction] :=
  ⟨rfl, rfl, rfl, rfl⟩

/-- C4 amended: for every item card whose host targeter yields no eligible
host, `getBestHost` raises an error inside `evaluateCard`, and the
per-candidate try/catch in `selectActions` downgrades the candidate to the
neutral zero-score, zero-cost placeholder instead of letting the error
propagate. -/
theorem C4_hostless_item_caught (cid : Nat) (card : ECard)
    (hitem : card.isItem = true) (hhosts : card.hostMultipliers = []) :
    evaluateCard cid card = Except.error AiError.noHostForItem ∧
    evalCandidates [(cid, card)] = [placeholderAction] := by
  have hhost : getBestHost card = Except.error AiError.noHostForItem := by
    simp [getBestHost, hhosts, maximumBy]
  have hcard : evaluateCard cid card = Except.error AiError.noHostForItem := by
    simp [evaluateCard, hitem, hhost, Except.map]
  exact ⟨hcard, by simp [evalCandidates, hcard]⟩

/-- C4 witness: the amended statement evaluated on the concrete hostless
item. -/
theorem C4_witness :
    evaluateCard 7 hostlessItem = Except.error AiError.noHostForItem ∧
    evalCandidates [(7, hostlessItem)] = [placeholderAction] :=
  C4_hostless_item_caught 7 hostlessItem rfl rfl

/-!
Claim C5: termination condition of the replanning loop.
-/

/-- C5 counterexample: with zero energy and a single zero-score, zero-cost
candidate (exactly the placeholder produced for a failed evaluation), the
optimizer selects a non-empty subset all of whose scores are non-positive,
and `selectActions` still schedules a commit and a replanning step —
refuting the claim that no further step is scheduled whenever every
selected action has non-positive score. -/
theorem C5_counterexample :
    (∀ action ∈ selectActionsToRun 0 [placeholderAction], action.score ≤ 0) ∧
    selectActionsSchedules 0 [placeholderAction] = true := by
  have hrun : selectActionsToRun 0 [placeholderAction] = [placeholderAction] := by
    simp [selectActionsToRun, knapsackSel, totalB, placeholderAction]
  constructor
  · rw [hrun]
    intro action h
    simp only [List.mem_singleton] at h
    simp [h, placeholderAction]
  · simp [selectActionsSchedules, hrun, maximumBy]

/-- C5 amended: `selectActions` schedules a further commit and replanning
step exactly when the optimizer's selected subset is non-empty — the loop
stops when no action at all is selected, not when every selected action has
non-positive score. -/
theorem C5_stops_iff_empty (energy : Nat) (actions : List EvaluatedAction) :
    selectActionsSchedules energy actions = true ↔
      selectActionsToRun energy actions ≠ [] :=
  maximumBy_isSome _ _

/-!
Claim C7: monotonicity of the modify-effect score in the effect magnitude.
-/

/-- C7 counterexample: two modifiable effects with equal remaining
activation value (6) and equal modify cost (2); the one with greater
magnitude (3 versus 1) receives the strictly smaller score (1 versus 3) —
refuting the claimed monotone non-decrease in magnitude. -/
theorem C7_counterexample :
    (MEnchantment.mk 6 2 3).playCost = (MEnchantment.mk 6 2 1).playCost ∧
    (MEnchantment.mk 6 2 3).modifyCost = (MEnchantment.mk 6 2 1).modifyCost ∧
    (MEnchantment.mk 6 2 1).power < (MEnchantment.mk 6 2 3).power ∧
    (evaluateEnchantment (MEnchantment.mk 6 2 3)).score <
      (evaluateEnchantment (MEnchantment.mk 6 2 1)).score := by
  refine ⟨rfl, rfl, by norm_num, ?_⟩
  norm_num [evaluateEnchantment]

/-- C7 amended: the modify-effect score is monotonically non-increasing in
the effect magnitude: for two effects with equal remaining activation value
and equal modify cost, the one with greater (positive) magnitude receives a
score at most as high as the other. -/
theorem C7_score_antitone_in_power (e1 e2 : MEnchantment)
    (hp : e1.playCost = e2.playCost) (hm : e1.modifyCost = e2.modifyCost)
    (h0 : 0 < e1.power) (hle : e1.power ≤ e2.power) :
    (evaluateEnchantment e2).score ≤ (evaluateEnchantment e1).score := by
  simp only [evaluateEnchantment]
  rw [← hp, ← hm]
  rcases Nat.eq_zero_or_pos e1.modifyCost with hc | hc
  · simp [hc]
  · have hc2 : (0 : ℚ) < (e1.modifyCost : ℚ) := by exact_mod_cast hc
    have hpos1 : (0 : ℚ) < (e1.modifyCost : ℚ) * e1.power := mul_pos hc2 h0
    have hmul : (e1.modifyCost : ℚ) * e1.power ≤ (e1.modifyCost : ℚ) * e2.power :=
      mul_le_mul_of_nonneg_left hle (le_of_lt hc2)
    exact div_le_div_of_nonneg_left (by positivity) hpos1 hmul

/-- C7 witness: the amended monotonicity evaluated on the concrete pair of
effects from the counterexample. -/
theorem C7_witness :
    (evaluateEnchantment (MEnchantment.mk 6 2 3)).score ≤
      (evaluateEnchantment (MEnchantment.mk 6 2 1)).score :=
  C7_score_antitone_in_power (MEnchantment.mk 6 2 1) (MEnchantment.mk 6 2 3) rfl rfl
    (by norm_num) (by norm_num)

/-!
Claim C10: behavior of the registered choice callback.
-/

/-- C10 counterexample: `makeChoice` invoked with no callback and a
prompted player (1) different from the controlled player (0) returns
without deferring the choice — refuting the claim that every invocation
with a different prompted player defers the choice to the game. -/
theorem C10_counterexample :
    (1 : Nat) ≠ 0 ∧
    makeChoice 0 [] 0 1 [] 1 1 false ChoiceHeuristic.DrawHeuristic =
      ChoiceEffect.mk false none := by
  decide

/-- C10 amended: with no callback, `makeChoice` returns without deferring
or submitting; with a callback and a prompted player different from the
controlled player it defers but never submits; and a selection is submitted
only when the prompted player equals the controlled player and a callback
is provided. -/
theorem C10_makeChoice_amended (pool : Int) (deckCards : List CCard)
    (ai player : Nat) (options : List CCard) (mi ma : Nat)
    (hasCallback : Bool) (tag : ChoiceHeuristic) :
    (hasCallback = false →
      makeChoice pool deckCards ai player options mi ma hasCallback tag =
        ChoiceEffect.mk false none) ∧
    (hasCallback = true → player ≠ ai →
      makeChoice pool deckCards ai player options mi ma hasCallback tag =
        ChoiceEffect.mk true none) ∧
    ((makeChoice pool deckCards ai player options mi ma hasCallback tag).submitted.isSome
        = true →
      player = ai ∧ hasCallback = true) := by
  refine ⟨?_, ?_, ?_⟩
  · intro h
    subst h
    rfl
  · intro h hne
    subst h
    simp [makeChoice, hne]
  · intro h
    cases hasCallback with
    | false => simp [makeChoice] at h
    | true =>
      by_cases hpe : player = ai
      · exact ⟨hpe, rfl⟩
      · simp [makeChoice, hpe] at h

/-- C10 witness: the amended statement evaluated at concrete invocations
with and without a callback. -/
theorem C10_witness :
    makeChoice 0 [] 0 1 [] 1 1 false ChoiceHeuristic.DrawHeuristic =
      ChoiceEffect.mk false none ∧
    makeChoice 0 [] 0 1 [] 1 1 true ChoiceHeuristic.DrawHeuristic =
      ChoiceEffect.mk true none :=
  ⟨(C10_makeChoice_amended 0 [] 0 1 [] 1 1 false ChoiceHeuristic.DrawHeuristic).1 rfl,
   (C10_makeChoice_amended 0 [] 0 1 [] 1 1 true ChoiceHeuristic.DrawHeuristic).2.1 rfl
     (by decide)⟩

/-!
Claim C8: Draw versus Discard singletons.
-/

/-- C8 counterexample: two candidates with pairwise distinct costs (4 and
6) but equal draw-heuristic distance from the pool of 5; with
`min = max = 1` both Draw and Discard return the first candidate, refuting
the claim that distinct costs force distinct singletons. -/
theorem C8_counterexample :
    (⟨1, 4, 0⟩ : CCard).cost ≠ (⟨2, 6, 0⟩ : CCard).cost ∧
    evaluateToDraw 5 [⟨1, 4, 0⟩, ⟨2, 6, 0⟩] 1 1 = [⟨1, 4, 0⟩] ∧
    evaluateToDiscard 5 [⟨1, 4, 0⟩, ⟨2, 6, 0⟩] 1 1 = [⟨1, 4, 0⟩] := by
  decide

/-- C8 amended: with at least two candidates and pairwise distinct
draw-heuristic values (distances between pool and cost), the singleton
returned by Draw differs from the singleton returned by Discard. -/
theorem C8_draw_discard_distinct (pool : Int) (choices : List CCard)
    (hlen : 2 ≤ choices.length)
    (hnd : (choices.map (cardDrawHeuristic pool)).Nodup) :
    evaluateToDraw pool choices 1 1 ≠ evaluateToDiscard pool choices 1 1 := by
  obtain ⟨c0, t0, rfl⟩ : ∃ c0 t0, choices = c0 :: t0 := by
    cases choices with
    | nil => simp at hlen
    | cons a t => exact ⟨a, t, rfl⟩
  obtain ⟨c1, rest, rfl⟩ : ∃ c1 rest, t0 = c1 :: rest := by
    cases t0 with
    | nil => simp at hlen
    | cons a t => exact ⟨a, t, rfl⟩
  intro heq
  cases hs1 : sortByKey (fun card => cardDrawHeuristic pool card) (c0 :: c1 :: rest) with
  | nil =>
    have hl := sortByKey_length (fun card => cardDrawHeuristic pool card) (c0 :: c1 :: rest)
    rw [hs1] at hl
    simp at hl
  | cons d t1 =>
    cases hs2 : sortByKey (fun card => -cardDrawHeuristic pool card) (c0 :: c1 :: rest) with
    | nil =>
      have hl := sortByKey_length (fun card => -cardDrawHeuristic pool card) (c0 :: c1 :: rest)
      rw [hs2] at hl
      simp at hl
    | cons e t2 =>
      have hdraw : evaluateToDraw pool (c0 :: c1 :: rest) 1 1 = [d] := by
        simp [evaluateToDraw, hs1]
      have hdisc : evaluateToDiscard pool (c0 :: c1 :: rest) 1 1 = [e] := by
        simp [evaluateToDiscard, hs2]
      rw [hdraw, hdisc] at heq
      have hde : d = e := by simpa using heq
      have hmin := sortByKey_head_min (fun card => cardDrawHeuristic pool card) _ _ _ hs1
      have hmax := sortByKey_head_min (fun card => -cardDrawHeuristic pool card) _ _ _ hs2
      rw [← hde] at hmax
      have h0 : cardDrawHeuristic pool c0 = cardDrawHeuristic pool d := by
        have ha := hmin c0 (by simp)
        have hb := hmax c0 (by simp)
        dsimp only at ha hb
        omega
      have h1 : cardDrawHeuristic pool c1 = cardDrawHeuristic pool d := by
        have ha := hmin c1 (by simp)
        have hb := hmax c1 (by simp)
        dsimp only at ha hb
        omega
      have hne : cardDrawHeuristic pool c0 ≠ cardDrawHeuristic pool c1 := by
        simp only [List.map_cons, List.nodup_cons, List.mem_cons] at hnd
        exact fun hcc => hnd.1 (Or.inl hcc)
      exact hne (h0.trans h1.symm)

/-- C8 witness: the amended statement evaluated on two candidates whose
draw-heuristic values (1 and 5 at pool 0) are distinct. -/
theorem C8_witness :
    2 ≤ ([⟨1, 1, 0⟩, ⟨2, 5, 0⟩] : List CCard).length ∧
    (([⟨1, 1, 0⟩, ⟨2, 5, 0⟩] : List CCard).map (cardDrawHeuristic 0)).Nodup ∧
    evaluateToDraw 0 [⟨1, 1, 0⟩, ⟨2, 5, 0⟩] 1 1 ≠
      evaluateToDiscard 0 [⟨1, 1, 0⟩, ⟨2, 5, 0⟩] 1 1 :=
  ⟨by decide, by decide,
   C8_draw_discard_distinct 0 [⟨1, 1, 0⟩, ⟨2, 5, 0⟩] (by decide) (by decide)⟩

/-!
Claim C9: cardinality bounds of the chosen subset.
-/

/-- C9: for every heuristic tag and every prompt with `min ≤ max`, if the
candidate list holds at least `min` cards then `getCardToChoose` returns
between `min` and `max` cards. -/
theorem C9_choice_bounds (pool : Int) (deckCards options : List CCard)
    (mi ma : Nat) (tag : ChoiceHeuristic)
    (hmm : mi ≤ ma) (hlen : mi ≤ options.length) :
    mi ≤ (getCardToChoose pool deckCards options mi ma tag).length ∧
    (getCardToChoose pool deckCards options mi ma tag).length ≤ ma := by
  have hnolt : ¬ options.length < mi := not_lt.mpr hlen
  rw [getCardToChoose, if_neg hnolt]
  cases tag with
  | DrawHeuristic =>
    simp only [getHeuristic, evaluateToDraw, List.length_take, sortByKey_length]
    omega
  | DiscardHeuristic =>
    simp only [getHeuristic, evaluateToDiscard, List.length_take, sortByKey_length]
    omega
  | HighestStatsHeuristic =>
    simp only [getHeuristic, highestStatHeuristic, List.length_take, sortByKey_length]
    omega
  | ReplaceHeuristic =>
    simp only [getHeuristic, evaluateToReplace, List.length_append, List.length_take,
      sortByKey_length]
    omega

/-- C9 witness: the bounds evaluated for the Draw heuristic with two
options, `min = 1` and `max = 2`. -/
theorem C9_witness :
    1 ≤ (getCardToChoose 0 [] [⟨1, 1, 0⟩, ⟨2, 2, 0⟩] 1 2 ChoiceHeuristic.DrawHeuristic).length ∧
    (getCardToChoose 0 [] [⟨1, 1, 0⟩, ⟨2, 2, 0⟩] 1 2 ChoiceHeuristic.DrawHeuristic).length ≤ 2 :=
  C9_choice_bounds 0 [] [⟨1, 1, 0⟩, ⟨2, 2, 0⟩] 1 2 ChoiceHeuristic.DrawHeuristic
    (by decide) (by decide)

end CCG
